import Mathlib

/-!
Shallow embedding of the live-chat server (src/server.js).

Modeling conventions:
- JS Map objects (users, voiceRooms, per-message reactions) are insertion-ordered
  association lists; Map.set on an existing key replaces the value in place,
  Map.set on a fresh key appends, Map.delete removes the entry, and iteration
  (values, forEach) follows list order, exactly as JS Maps behave.
- JS Set objects (voice-room member sets) are insertion-ordered duplicate-free
  lists: add appends when absent, delete removes the element.
- Wall-clock timestamps (new Date()) are a logical counter stored in the state,
  advanced by one each time a handler reads the clock; within one handler all
  reads see the same value, matching the millisecond granularity of Date.
- uuidv4 message ids are a fresh Nat counter; freshness models uuid uniqueness.
- Socket identifiers are opaque strings.
- socket.join / socket.leave transport-room bookkeeping is not part of the
  server state; targeted and room emits are recorded symbolically in Emit.
-/

/-- A connected user record, as built by the user_join handler in server.js. -/
structure User where
  id : String
  username : String
  bubbleColor : String
  isOwner : Bool
  joinTime : Nat
deriving DecidableEq, Repr

/-- Message type tag: the type field of a message holds the string system or user. -/
inductive MsgType where
  | system
  | user
deriving DecidableEq, Repr

/-- A chat message. Fields that are absent (undefined) on system messages are
Options; reactions maps an emoji to the insertion-ordered list of usernames,
with the absent reactions field of system messages modeled as the empty map
(the add_reaction handler initializes an absent map to empty before use, which
is observationally the same). -/
structure Message where
  id : Nat
  type : MsgType
  content : String
  username : String
  userId : Option String := none
  bubbleColor : Option String := none
  timestamp : Nat
  formatting : Option String := none
  attachment : Option String := none
  replyTo : Option Nat := none
  reactions : List (String × List String) := []
  edited : Bool := false
  editedAt : Option Nat := none
deriving DecidableEq, Repr

/-- The serverSettings object of server.js. -/
structure ServerSettings where
  allowHistoryForNewUsers : Bool
  maxMessageLength : Nat
  allowAttachments : Bool
  allowVoiceChat : Bool
  serverName : String
  ownerId : Option String
deriving DecidableEq, Repr

/-- A partial settings object sent with update_server_settings: an outer some
means the field is present in the patch; for ownerId the inner Option is the
stored null-or-id value. The handler merges with object spread, so present
fields overwrite and absent fields are retained. -/
structure SettingsPatch where
  allowHistoryForNewUsers : Option Bool := none
  maxMessageLength : Option Nat := none
  allowAttachments : Option Bool := none
  allowVoiceChat : Option Bool := none
  serverName : Option String := none
  ownerId : Option (Option String) := none
deriving DecidableEq, Repr

/-- The shallow merge of the update_server_settings handler. -/
def applyPatch (s : ServerSettings) (p : SettingsPatch) : ServerSettings where
  allowHistoryForNewUsers := p.allowHistoryForNewUsers.getD s.allowHistoryForNewUsers
  maxMessageLength := p.maxMessageLength.getD s.maxMessageLength
  allowAttachments := p.allowAttachments.getD s.allowAttachments
  allowVoiceChat := p.allowVoiceChat.getD s.allowVoiceChat
  serverName := p.serverName.getD s.serverName
  ownerId := p.ownerId.getD s.ownerId

/-- The whole mutable server state of server.js. -/
structure ServerState where
  settings : ServerSettings
  messages : List Message
  users : List (String × User)
  voiceRooms : List (String × List String)
  nextMsgId : Nat
  clock : Nat
deriving DecidableEq, Repr

/-- Outbound socket.io emissions, with their target recorded symbolically. -/
inductive Emit where
  | ownerStatus (target : String) (value : Bool)
  | serverSettingsTo (target : String) (settings : ServerSettings)
  | serverSettingsAll (settings : ServerSettings)
  | userData (target : String) (u : User)
  | messageHistory (target : String) (msgs : List Message)
  | usersUpdate (userList : List User)
  | newMessage (msg : Message)
  | messageEdited (msgId : Nat) (newContent : String) (editedAt : Nat)
  | messageDeleted (msgId : Nat)
  | reactionAdded (msgId : Nat) (emoji : String) (usernames : List String)
  | voiceUserJoined (roomId : String) (uid : String) (username : String)
  | voiceUserLeft (roomId : String) (uid : String)
  | searchResults (target : String) (msgs : List Message)
  | webrtcOfferOut (target : String) (payload : String) (sender : String)
  | webrtcAnswerOut (target : String) (payload : String) (sender : String)
  | webrtcIceOut (target : String) (payload : String) (sender : String)
deriving DecidableEq, Repr

/-- Inbound events: a transport-level connection, the socket.io events handled
by server.js, and the transport-level disconnect. -/
inductive Event where
  | connect (sid : String)
  | userJoin (sid : String) (username : String) (bubbleColor : Option String)
  | changeUsername (sid : String) (newUsername : String)
  | changeBubbleColor (sid : String) (newColor : String)
  | sendMessage (sid : String) (content : String) (formatting : Option String)
      (attachment : Option String) (replyTo : Option Nat)
  | editMessage (sid : String) (messageId : Nat) (newContent : String)
  | deleteMessage (sid : String) (messageId : Nat)
  | addReaction (sid : String) (messageId : Nat) (emoji : String)
  | joinVoice (sid : String) (roomId : String)
  | leaveVoice (sid : String) (roomId : String)
  | updateServerSettings (sid : String) (patch : SettingsPatch)
  | searchMessages (sid : String) (query : String)
  | webrtcOffer (sid : String) (target : String) (payload : String)
  | webrtcAnswer (sid : String) (target : String) (payload : String)
  | webrtcIceCandidate (sid : String) (target : String) (payload : String)
  | disconnect (sid : String)
deriving DecidableEq, Repr

/-- JS String.prototype.trim: drop leading and trailing whitespace. -/
def jsTrim (cs : List Char) : List Char :=
  ((cs.dropWhile Char.isWhitespace).reverse.dropWhile Char.isWhitespace).reverse

/-- sanitizeInput from server.js: strip every angle bracket, then trim. -/
def sanitizeInput (input : String) : String :=
  String.mk (jsTrim (input.data.filter (fun c => c != '<' && c != '>')))

/-- True when the character list starts with the url scheme matched by the
regex of processMessage. -/
def startsWithUrl (cs : List Char) : Bool :=
  "http://".data.isPrefixOf cs || "https://".data.isPrefixOf cs

/-- The anchor markup substituted for a url by processMessage. -/
def anchorWrap (url : List Char) : List Char :=
  "<a href=\"".data ++ url ++
    "\" target=\"_blank\" rel=\"noopener noreferrer\">".data ++ url ++ "</a>".data

/-- Left-to-right scan of the global url regex replacement: at a position where
the scheme matches, the match extends to the next whitespace and scanning
resumes after it. Fuel bounds recursion by the input length; every step
consumes at least one character, so fuel equal to the length is exact. -/
def linkifyAux : Nat → List Char → List Char
  | 0, cs => cs
  | fuel + 1, cs =>
    match cs with
    | [] => []
    | c :: rest =>
      if startsWithUrl (c :: rest) then
        let url := (c :: rest).takeWhile (fun ch => !ch.isWhitespace)
        let tail := (c :: rest).dropWhile (fun ch => !ch.isWhitespace)
        anchorWrap url ++ linkifyAux fuel tail
      else
        c :: linkifyAux fuel rest

/-- processMessage from server.js: replace each maximal run starting at a
https?-scheme and ending at whitespace with anchor markup. -/
def processMessage (text : String) : String :=
  String.mk (linkifyAux text.data.length text.data)

/-- JS or-with-default on a sanitized string: the empty string is falsy. -/
def jsOrDefault (s : String) (d : String) : String :=
  if s = "" then d else s

/-- JS or-with-default on a possibly absent string field. -/
def jsOrOpt (o : Option String) (d : String) : String :=
  match o with
  | none => d
  | some s => if s = "" then d else s

/-- JS truthiness of a possibly absent string field. -/
def jsTruthyOpt : Option String → Bool
  | none => false
  | some s => !(s == "")

/-- JS value-or-null of a possibly absent string field, as stored by the
send_message handler for the attachment field. -/
def jsOrNullOpt : Option String → Option String
  | none => none
  | some s => if s = "" then none else some s

/-- JS String.prototype.toLowerCase, restricted to the ascii range handled by
Char.toLower; queries and contents in the development stay in that range. -/
def jsToLower (s : String) : String :=
  String.mk (s.data.map Char.toLower)

/-- Contiguous-sublist test: some tail of the second list starts with the
first list. -/
def hasInfixB (pat : List Char) : List Char → Bool
  | [] => pat.isPrefixOf []
  | c :: rest => pat.isPrefixOf (c :: rest) || hasInfixB pat rest

/-- JS String.prototype.includes as used by the search handler. -/
def jsIncludes (hay pat : String) : Bool :=
  hasInfixB pat.data hay.data

/-- Map.get on an insertion-ordered association list. -/
def alLookup {α : Type} : List (String × α) → String → Option α
  | [], _ => none
  | (k, v) :: rest, key => if k = key then some v else alLookup rest key

/-- Map.set on an insertion-ordered association list: replace in place when the
key exists, append otherwise. -/
def alInsert {α : Type} : List (String × α) → String → α → List (String × α)
  | [], key, v => [(key, v)]
  | (k, w) :: rest, key, v =>
    if k = key then (key, v) :: rest else (k, w) :: alInsert rest key v

/-- Map.delete on an insertion-ordered association list. -/
def alErase {α : Type} : List (String × α) → String → List (String × α)
  | [], _ => []
  | (k, w) :: rest, key => if k = key then rest else (k, w) :: alErase rest key

/-- Set.add on an insertion-ordered duplicate-free list. -/
def setAdd (l : List String) (x : String) : List String :=
  if x ∈ l then l else l ++ [x]

/-- Set.delete on an insertion-ordered duplicate-free list. -/
def setDel : List String → String → List String
  | [], _ => []
  | y :: rest, x => if y = x then rest else y :: setDel rest x

/-- messages.findIndex by id followed by reading the element: the first message
with the given id, if any. -/
def findMsg : List Message → Nat → Option Message
  | [], _ => none
  | m :: rest, i => if m.id = i then some m else findMsg rest i

/-- In-place mutation of the message found by findIndex: replace the first
message with the given id. -/
def replaceFirstById : List Message → Nat → Message → List Message
  | [], _, _ => []
  | m :: rest, i, m' => if m.id = i then m' :: rest else m :: replaceFirstById rest i m'

/-- messages.splice(messageIndex, 1) after findIndex by id: drop the first
message with the given id. -/
def removeFirstById : List Message → Nat → List Message
  | [], _ => []
  | m :: rest, i => if m.id = i then rest else m :: removeFirstById rest i

/-- The initial server state of server.js before any connection. -/
def initState : ServerState where
  settings :=
    { allowHistoryForNewUsers := true
      maxMessageLength := 1000
      allowAttachments := true
      allowVoiceChat := true
      serverName := "Chat Server"
      ownerId := none }
  messages := []
  users := []
  voiceRooms := []
  nextMsgId := 0
  clock := 0

/-- The io.on connection callback: claim ownership for this socket when none is
set, then send the current settings to the new socket. -/
def onConnect (sid : String) (st : ServerState) : ServerState × List Emit :=
  match st.settings.ownerId with
  | none =>
    let settings1 := { st.settings with ownerId := some sid }
    ({ st with settings := settings1 },
      [Emit.ownerStatus sid true, Emit.serverSettingsTo sid settings1])
  | some _ => (st, [Emit.serverSettingsTo sid st.settings])

/-- The user_join handler: register the user keyed by socket id, send its
record back, optionally send history, broadcast the user list and a system
join notice. -/
def onUserJoin (sid : String) (username : String) (bubbleColor : Option String)
    (st : ServerState) : ServerState × List Emit :=
  let name := jsOrDefault (sanitizeInput username) "Anonymous"
  let u : User :=
    { id := sid
      username := name
      bubbleColor := jsOrOpt bubbleColor "#007bff"
      isOwner := decide (st.settings.ownerId = some sid)
      joinTime := st.clock }
  let users1 := alInsert st.users sid u
  let joinMsg : Message :=
    { id := st.nextMsgId
      type := MsgType.system
      content := name ++ " joined the chat"
      username := "System"
      timestamp := st.clock }
  ({ st with
      users := users1
      messages := st.messages ++ [joinMsg]
      nextMsgId := st.nextMsgId + 1
      clock := st.clock + 1 },
    [Emit.userData sid u]
      ++ (if st.settings.allowHistoryForNewUsers then
            [Emit.messageHistory sid st.messages] else [])
      ++ [Emit.usersUpdate (users1.map Prod.snd), Emit.newMessage joinMsg])

/-- The change_username handler. -/
def onChangeUsername (sid newUsername : String) (st : ServerState) :
    ServerState × List Emit :=
  match alLookup st.users sid with
  | none => (st, [])
  | some u =>
    let name := jsOrDefault (sanitizeInput newUsername) "Anonymous"
    let u1 := { u with username := name }
    let users1 := alInsert st.users sid u1
    let changeMsg : Message :=
      { id := st.nextMsgId
        type := MsgType.system
        content := u.username ++ " changed their name to " ++ name
        username := "System"
        timestamp := st.clock }
    ({ st with
        users := users1
        messages := st.messages ++ [changeMsg]
        nextMsgId := st.nextMsgId + 1
        clock := st.clock + 1 },
      [Emit.newMessage changeMsg, Emit.usersUpdate (users1.map Prod.snd)])

/-- The change_bubble_color handler. -/
def onChangeBubbleColor (sid newColor : String) (st : ServerState) :
    ServerState × List Emit :=
  match alLookup st.users sid with
  | none => (st, [])
  | some u =>
    let u1 := { u with bubbleColor := newColor }
    let users1 := alInsert st.users sid u1
    ({ st with users := users1 }, [Emit.usersUpdate (users1.map Prod.snd)])

/-- The send_message handler: drop the event when the caller is unregistered or
when the sanitized content is empty and the attachment is falsy. -/
def onSendMessage (sid : String) (content : String) (formatting : Option String)
    (attachment : Option String) (replyTo : Option Nat)
    (st : ServerState) : ServerState × List Emit :=
  match alLookup st.users sid with
  | none => (st, [])
  | some u =>
    let sc := sanitizeInput content
    if sc = "" ∧ jsTruthyOpt attachment = false then (st, [])
    else
      let msg : Message :=
        { id := st.nextMsgId
          type := MsgType.user
          content := processMessage sc
          username := u.username
          userId := some sid
          bubbleColor := some u.bubbleColor
          timestamp := st.clock
          formatting := formatting
          attachment := jsOrNullOpt attachment
          replyTo := replyTo }
      ({ st with
          messages := st.messages ++ [msg]
          nextMsgId := st.nextMsgId + 1
          clock := st.clock + 1 },
        [Emit.newMessage msg])

/-- The edit_message handler: only the author may edit. -/
def onEditMessage (sid : String) (messageId : Nat) (newContent : String)
    (st : ServerState) : ServerState × List Emit :=
  match findMsg st.messages messageId with
  | none => (st, [])
  | some m =>
    if m.userId = some sid then
      let sc := sanitizeInput newContent
      let m1 :=
        { m with
            content := processMessage sc
            edited := true
            editedAt := some st.clock }
      ({ st with
          messages := replaceFirstById st.messages messageId m1
          clock := st.clock + 1 },
        [Emit.messageEdited messageId m1.content st.clock])
    else (st, [])

/-- Optional-chained owner test of the delete handler: user?.isOwner is falsy
when the caller is not registered. -/
def jsOptIsOwner : Option User → Bool
  | none => false
  | some u => u.isOwner

/-- The delete_message handler: the author or the current owner may delete. -/
def onDeleteMessage (sid : String) (messageId : Nat) (st : ServerState) :
    ServerState × List Emit :=
  match findMsg st.messages messageId with
  | none => (st, [])
  | some m =>
    if m.userId = some sid ∨ jsOptIsOwner (alLookup st.users sid) = true then
      ({ st with messages := removeFirstById st.messages messageId },
        [Emit.messageDeleted messageId])
    else (st, [])

/-- The add_reaction handler: initialize the reaction map and the per-emoji
list when absent, then append the username unless it already reacted. -/
def onAddReaction (sid : String) (messageId : Nat) (emoji : String)
    (st : ServerState) : ServerState × List Emit :=
  match findMsg st.messages messageId, alLookup st.users sid with
  | some m, some u =>
    let rs := if (alLookup m.reactions emoji).isSome then m.reactions
              else alInsert m.reactions emoji []
    let reactionUsers := (alLookup rs emoji).getD []
    if u.username ∈ reactionUsers then (st, [])
    else
      let reactionUsers1 := reactionUsers ++ [u.username]
      let m1 := { m with reactions := alInsert rs emoji reactionUsers1 }
      ({ st with messages := replaceFirstById st.messages messageId m1 },
        [Emit.reactionAdded messageId emoji reactionUsers1])
  | _, _ => (st, [])

/-- The join_voice handler: refused when voice chat is disabled or the caller
is unregistered; otherwise create the room when absent and add the member. -/
def onJoinVoice (sid roomId : String) (st : ServerState) :
    ServerState × List Emit :=
  if st.settings.allowVoiceChat = false then (st, [])
  else
    match alLookup st.users sid with
    | none => (st, [])
    | some u =>
      let rooms := if (alLookup st.voiceRooms roomId).isSome then st.voiceRooms
                   else alInsert st.voiceRooms roomId []
      let members := (alLookup rooms roomId).getD []
      ({ st with voiceRooms := alInsert rooms roomId (setAdd members sid) },
        [Emit.voiceUserJoined roomId sid u.username])

/-- The leave_voice handler: when the room exists, remove the caller from its
member set, drop the room when it became empty, and emit voice_user_left to
the room regardless. -/
def onLeaveVoice (sid roomId : String) (st : ServerState) :
    ServerState × List Emit :=
  match alLookup st.voiceRooms roomId with
  | none => (st, [])
  | some members =>
    let members1 := setDel members sid
    let rooms1 := if members1.length = 0 then alErase st.voiceRooms roomId
                  else alInsert st.voiceRooms roomId members1
    ({ st with voiceRooms := rooms1 }, [Emit.voiceUserLeft roomId sid])

/-- The update_server_settings handler: owner only, object-spread merge. -/
def onUpdateServerSettings (sid : String) (patch : SettingsPatch)
    (st : ServerState) : ServerState × List Emit :=
  match alLookup st.users sid with
  | some u =>
    if u.isOwner = true then
      let settings1 := applyPatch st.settings patch
      ({ st with settings := settings1 }, [Emit.serverSettingsAll settings1])
    else (st, [])
  | none => (st, [])

/-- The filter predicate of the search_messages handler, applied to the already
sanitized and lowercased query. -/
def searchMatch (q : String) (m : Message) : Bool :=
  jsIncludes (jsToLower m.content) q || jsIncludes (jsToLower m.username) q

/-- The search_messages handler: no registration guard, always answers the
sender with the filtered log. -/
def onSearchMessages (sid query : String) (st : ServerState) :
    ServerState × List Emit :=
  let q := jsToLower (sanitizeInput query)
  (st, [Emit.searchResults sid (st.messages.filter (searchMatch q))])

/-- The webrtc_offer relay: no registration guard. -/
def onWebrtcOffer (sid target payload : String) (st : ServerState) :
    ServerState × List Emit :=
  (st, [Emit.webrtcOfferOut target payload sid])

/-- The webrtc_answer relay: no registration guard. -/
def onWebrtcAnswer (sid target payload : String) (st : ServerState) :
    ServerState × List Emit :=
  (st, [Emit.webrtcAnswerOut target payload sid])

/-- The webrtc_ice_candidate relay: no registration guard. -/
def onWebrtcIce (sid target payload : String) (st : ServerState) :
    ServerState × List Emit :=
  (st, [Emit.webrtcIceOut target payload sid])

/-- The voiceRooms.forEach purge in the disconnect handler: remove the socket
from every room holding it, emit voice_user_left to that room, and drop rooms
that became empty. -/
def purgeVoice (rooms : List (String × List String)) (sid : String) :
    List (String × List String) × List Emit :=
  match rooms with
  | [] => ([], [])
  | (rid, members) :: rest =>
    let purged := purgeVoice rest sid
    if sid ∈ members then
      let members1 := setDel members sid
      if members1.length = 0 then (purged.1, Emit.voiceUserLeft rid sid :: purged.2)
      else ((rid, members1) :: purged.1, Emit.voiceUserLeft rid sid :: purged.2)
    else ((rid, members) :: purged.1, purged.2)

/-- The disconnect handler: unregister the user, purge voice rooms, broadcast a
leave notice and the user list, and promote the first remaining registered
user when the owner left. -/
def onDisconnect (sid : String) (st : ServerState) : ServerState × List Emit :=
  match alLookup st.users sid with
  | none => (st, [])
  | some u =>
    let users1 := alErase st.users sid
    let purged := purgeVoice st.voiceRooms sid
    let leaveMsg : Message :=
      { id := st.nextMsgId
        type := MsgType.system
        content := u.username ++ " left the chat"
        username := "System"
        timestamp := st.clock }
    let st1 :=
      { st with
          users := users1
          voiceRooms := purged.1
          messages := st.messages ++ [leaveMsg]
          nextMsgId := st.nextMsgId + 1
          clock := st.clock + 1 }
    let baseEmits := purged.2 ++
      [Emit.newMessage leaveMsg, Emit.usersUpdate (users1.map Prod.snd)]
    if u.isOwner = true then
      match users1 with
      | [] => (st1, baseEmits)
      | (k0, u0) :: rest =>
        let u1 := { u0 with isOwner := true }
        let settings1 := { st1.settings with ownerId := some u0.id }
        ({ st1 with users := (k0, u1) :: rest, settings := settings1 },
          baseEmits ++ [Emit.ownerStatus u0.id true, Emit.serverSettingsAll settings1])
    else (st1, baseEmits)

/-- Dispatch one inbound event to its handler. -/
def applyEvent (e : Event) (st : ServerState) : ServerState × List Emit :=
  match e with
  | Event.connect sid => onConnect sid st
  | Event.userJoin sid username bubbleColor => onUserJoin sid username bubbleColor st
  | Event.changeUsername sid newUsername => onChangeUsername sid newUsername st
  | Event.changeBubbleColor sid newColor => onChangeBubbleColor sid newColor st
  | Event.sendMessage sid content formatting attachment replyTo =>
      onSendMessage sid content formatting attachment replyTo st
  | Event.editMessage sid messageId newContent => onEditMessage sid messageId newContent st
  | Event.deleteMessage sid messageId => onDeleteMessage sid messageId st
  | Event.addReaction sid messageId emoji => onAddReaction sid messageId emoji st
  | Event.joinVoice sid roomId => onJoinVoice sid roomId st
  | Event.leaveVoice sid roomId => onLeaveVoice sid roomId st
  | Event.updateServerSettings sid patch => onUpdateServerSettings sid patch st
  | Event.searchMessages sid query => onSearchMessages sid query st
  | Event.webrtcOffer sid target payload => onWebrtcOffer sid target payload st
  | Event.webrtcAnswer sid target payload => onWebrtcAnswer sid target payload st
  | Event.webrtcIceCandidate sid target payload => onWebrtcIce sid target payload st
  | Event.disconnect sid => onDisconnect sid st

/-- Run a sequence of events from a given state, keeping only the state. -/
def runFrom (st : ServerState) (evs : List Event) : ServerState :=
  evs.foldl (fun s e => (applyEvent e s).1) st

/-- Run a sequence of events from the initial state. -/
def runEvents (evs : List Event) : ServerState :=
  runFrom initState evs

/-- Claim predicate for the stated C1 invariant: at most one registered user
has isOwner, and either ownerId is the id of a registered owner, or no users
are connected and ownerId is unset. -/
@[reducible] def C1Claim (st : ServerState) : Prop :=
  (∀ p ∈ st.users, ∀ q ∈ st.users, p.2.isOwner = true → q.2.isOwner = true → p = q) ∧
  ((∃ p ∈ st.users, p.2.isOwner = true ∧ st.settings.ownerId = some p.2.id) ∨
    (st.users = [] ∧ st.settings.ownerId = none))

/-- Registration invariant: user-map keys are the user ids and are
duplicate-free, and every registered owner is the user named by ownerId. -/
@[reducible] def RegInv (st : ServerState) : Prop :=
  (∀ p ∈ st.users, p.1 = p.2.id) ∧
  (st.users.map Prod.fst).Nodup ∧
  (∀ p ∈ st.users, p.2.isOwner = true → st.settings.ownerId = some p.2.id)

/-- The event alphabet of claim C1, with update_server_settings restricted to
patches that do not carry an ownerId field. -/
@[reducible] def C1Event : Event → Prop
  | Event.connect _ => True
  | Event.userJoin _ _ _ => True
  | Event.disconnect _ => True
  | Event.updateServerSettings _ patch => patch.ownerId = none
  | _ => False

/-- Claim predicate for C2 at one state and one disconnecting socket: whenever
the socket is the registered owner, every remaining user of minimal join time
must come out of the disconnect promoted and recorded in ownerId. -/
@[reducible] def C2ClaimAt (st : ServerState) (sid : String) : Prop :=
  (alLookup st.users sid).map (fun u => u.isOwner) = some true →
  ∀ p ∈ alErase st.users sid,
    (∀ q ∈ alErase st.users sid, p.2.joinTime ≤ q.2.joinTime) →
    ((alLookup (onDisconnect sid st).1.users p.1).map (fun u => u.isOwner) = some true ∧
      (onDisconnect sid st).1.settings.ownerId = some p.2.id)

/-- Voice-room registry invariant of claim C7: no room entry has an empty
member set. -/
@[reducible] def RoomsNonempty (st : ServerState) : Prop :=
  ∀ p ∈ st.voiceRooms, p.2 ≠ []

/-- Reaction invariant of claim C5: no reaction list repeats a username. -/
@[reducible] def ReactionsNodup (st : ServerState) : Prop :=
  ∀ m ∈ st.messages, ∀ p ∈ m.reactions, p.2.Nodup

/-- Scenario: one connected socket that joined and is the owner. -/
def stA : ServerState :=
  runEvents [Event.connect "a", Event.userJoin "a" "A" none]

/-- Scenario: two joined users, the first one the owner. -/
def stAB : ServerState :=
  runEvents [Event.connect "a", Event.userJoin "a" "A" none,
    Event.connect "b", Event.userJoin "b" "B" none]

/-- Scenario: joined owner a with one user message Hello World in the log. -/
def stMsg : ServerState :=
  runEvents [Event.connect "a", Event.userJoin "a" "A" none,
    Event.sendMessage "a" "Hello World" none none none]

/-- Scenario: joined owner a alone in voice room r. -/
def stVoice : ServerState :=
  runEvents [Event.connect "a", Event.userJoin "a" "A" none,
    Event.joinVoice "a" "r"]

/-- Scenario: three joined users a, b, c in that map order, a the owner, then
b re-joins so that its join time becomes the latest while it keeps its map
position ahead of c. -/
def stRejoin : ServerState :=
  runEvents [Event.connect "a", Event.userJoin "a" "A" none,
    Event.connect "b", Event.userJoin "b" "B" none,
    Event.connect "c", Event.userJoin "c" "C" none,
    Event.userJoin "b" "B" none]

theorem alLookup_mem {α : Type} {l : List (String × α)} {k : String} {v : α}
    (h : alLookup l k = some v) : (k, v) ∈ l := by
  induction l with
  | nil => simp [alLookup] at h
  | cons p rest ih =>
    obtain ⟨k1, v1⟩ := p
    by_cases hk : k1 = k
    · subst hk
      simp [alLookup] at h
      simp [h]
    · simp only [alLookup, if_neg hk] at h
      exact List.mem_cons_of_mem _ (ih h)

theorem alLookup_eq_none {α : Type} {l : List (String × α)} {k : String} :
    alLookup l k = none ↔ k ∉ l.map Prod.fst := by
  induction l with
  | nil => simp [alLookup]
  | cons p rest ih =>
    obtain ⟨k1, v1⟩ := p
    by_cases hk : k1 = k
    · subst hk; simp [alLookup]
    · simp only [alLookup, if_neg hk, List.map_cons, List.mem_cons, ih]
      constructor
      · rintro hn (h1 | h2)
        · exact hk h1.symm
        · exact hn h2
      · intro hn
        exact fun h2 => hn (Or.inr h2)

theorem mem_alInsert {α : Type} {l : List (String × α)} {k : String} {v : α}
    {p : String × α} (h : p ∈ alInsert l k v) : p = (k, v) ∨ p ∈ l := by
  induction l with
  | nil => simpa [alInsert] using h
  | cons q rest ih =>
    obtain ⟨k1, v1⟩ := q
    by_cases hk : k1 = k
    · subst hk
      simp only [alInsert, if_true, eq_self_iff_true, List.mem_cons] at h
      exact h.imp id (List.mem_cons_of_mem _)
    · simp only [alInsert, if_neg hk, List.mem_cons] at h
      refine h.elim (fun h1 => Or.inr ?_)
        (fun h1 => (ih h1).imp id (List.mem_cons_of_mem _))
      rw [h1]
      exact List.mem_cons_self _ _

theorem keys_alInsert_mem {α : Type} {l : List (String × α)} {k : String} {v : α}
    {x : String} (h : x ∈ (alInsert l k v).map Prod.fst) :
    x ∈ l.map Prod.fst ∨ x = k := by
  simp only [List.mem_map] at h
  obtain ⟨p, hp, hx⟩ := h
  rcases mem_alInsert hp with h1 | h1
  · right; rw [h1] at hx; exact hx.symm ▸ rfl
  · left; exact List.mem_map.mpr ⟨p, h1, hx⟩

theorem nodup_keys_alInsert {α : Type} {l : List (String × α)} (k : String) (v : α)
    (h : (l.map Prod.fst).Nodup) : ((alInsert l k v).map Prod.fst).Nodup := by
  induction l with
  | nil => simp [alInsert]
  | cons p rest ih =>
    obtain ⟨k1, v1⟩ := p
    simp only [List.map_cons, List.nodup_cons] at h
    by_cases hk : k1 = k
    · subst hk
      simpa [alInsert, List.nodup_cons] using h
    · simp only [alInsert, if_neg hk, List.map_cons, List.nodup_cons]
      refine ⟨fun hmem => ?_, ih h.2⟩
      rcases keys_alInsert_mem hmem with h1 | h1
      · exact h.1 h1
      · exact hk h1

theorem alErase_sublist {α : Type} (l : List (String × α)) (k : String) :
    (alErase l k).Sublist l := by
  induction l with
  | nil => simp [alErase]
  | cons p rest ih =>
    obtain ⟨k1, v1⟩ := p
    by_cases hk : k1 = k
    · rw [show alErase ((k1, v1) :: rest) k = rest from by simp [alErase, hk]]
      exact List.sublist_cons_self _ _
    · rw [show alErase ((k1, v1) :: rest) k = (k1, v1) :: alErase rest k from by
        simp [alErase, hk]]
      exact List.Sublist.cons₂ (k1, v1) ih

theorem mem_alErase {α : Type} {l : List (String × α)} {k : String}
    {p : String × α} (h : p ∈ alErase l k) : p ∈ l :=
  (alErase_sublist l k).mem h

theorem nodup_keys_alErase {α : Type} {l : List (String × α)} (k : String)
    (h : (l.map Prod.fst).Nodup) : ((alErase l k).map Prod.fst).Nodup :=
  ((alErase_sublist l k).map Prod.fst).nodup h

theorem not_mem_keys_alErase {α : Type} {l : List (String × α)} {k : String}
    (h : (l.map Prod.fst).Nodup) : k ∉ (alErase l k).map Prod.fst := by
  induction l with
  | nil => simp [alErase]
  | cons p rest ih =>
    obtain ⟨k1, v1⟩ := p
    simp only [List.map_cons, List.nodup_cons] at h
    by_cases hk : k1 = k
    · subst hk
      simpa [alErase] using h.1
    · simp only [alErase, if_neg hk, List.map_cons, List.mem_cons]
      rintro (h1 | h1)
      · exact hk h1.symm
      · exact ih h.2 h1

theorem alLookup_alInsert {α : Type} (l : List (String × α)) (k : String) (v : α) :
    alLookup (alInsert l k v) k = some v := by
  induction l with
  | nil => simp [alInsert, alLookup]
  | cons p rest ih =>
    obtain ⟨k1, v1⟩ := p
    by_cases hk : k1 = k
    · simp [alInsert, alLookup, hk]
    · simp [alInsert, alLookup, hk, ih]

theorem alInsert_alInsert {α : Type} (l : List (String × α)) (k : String) (v w : α) :
    alInsert (alInsert l k v) k w = alInsert l k w := by
  induction l with
  | nil => simp [alInsert]
  | cons p rest ih =>
    obtain ⟨k1, v1⟩ := p
    by_cases hk : k1 = k
    · simp [alInsert, hk]
    · simp [alInsert, hk, ih]

theorem alInsert_lookup_self {α : Type} {l : List (String × α)} {k : String} {v : α}
    (h : alLookup l k = some v) : alInsert l k v = l := by
  induction l with
  | nil => simp [alLookup] at h
  | cons p rest ih =>
    obtain ⟨k1, v1⟩ := p
    by_cases hk : k1 = k
    · subst hk
      simp only [alLookup, if_true, eq_self_iff_true, Option.some.injEq] at h
      subst h
      simp [alInsert]
    · simp only [alLookup, if_neg hk] at h
      simp [alInsert, hk, ih h]

theorem setDel_not_mem {l : List String} {x : String} (h : x ∉ l) :
    setDel l x = l := by
  induction l with
  | nil => rfl
  | cons y rest ih =>
    simp only [List.mem_cons, not_or] at h
    simp [setDel, Ne.symm h.1, ih h.2]

theorem setAdd_ne_nil (l : List String) (x : String) : setAdd l x ≠ [] := by
  by_cases hx : x ∈ l
  · simp only [setAdd, if_pos hx]
    rintro rfl
    simp at hx
  · simp [setAdd, if_neg hx]

theorem findMsg_mem {l : List Message} {i : Nat} {m : Message}
    (h : findMsg l i = some m) : m ∈ l := by
  induction l with
  | nil => simp [findMsg] at h
  | cons m1 rest ih =>
    by_cases hi : m1.id = i
    · simp only [findMsg, if_pos hi, Option.some.injEq] at h
      simp [h]
    · simp only [findMsg, if_neg hi] at h
      exact List.mem_cons_of_mem _ (ih h)

theorem findMsg_id {l : List Message} {i : Nat} {m : Message}
    (h : findMsg l i = some m) : m.id = i := by
  induction l with
  | nil => simp [findMsg] at h
  | cons m1 rest ih =>
    by_cases hi : m1.id = i
    · simp only [findMsg, if_pos hi, Option.some.injEq] at h
      rw [← h]
      exact hi
    · simp only [findMsg, if_neg hi] at h
      exact ih h

theorem findMsg_eq_none {l : List Message} {i : Nat}
    (h : ∀ m ∈ l, m.id ≠ i) : findMsg l i = none := by
  induction l with
  | nil => rfl
  | cons m1 rest ih =>
    have h1 := h m1 (List.mem_cons_self _ _)
    simp only [findMsg, if_neg h1]
    exact ih fun m hm => h m (List.mem_cons_of_mem _ hm)

theorem removeFirstById_no_id {l : List Message} {i : Nat}
    (h : l.countP (fun m => m.id == i) ≤ 1) :
    ∀ x ∈ removeFirstById l i, x.id ≠ i := by
  induction l with
  | nil => simp [removeFirstById]
  | cons m1 rest ih =>
    by_cases hi : m1.id = i
    · simp only [removeFirstById, if_pos hi]
      rw [List.countP_cons_of_pos _ _ (by simp [hi])] at h
      have h0 : rest.countP (fun m => m.id == i) = 0 := by omega
      intro x hx
      have := List.countP_eq_zero.mp h0 x hx
      simpa using this
    · simp only [removeFirstById, if_neg hi]
      rw [List.countP_cons_of_neg _ _ (by simp [hi])] at h
      intro x hx
      rcases List.mem_cons.mp hx with h1 | h1
      · rw [h1]; exact hi
      · exact ih h x h1

theorem removeFirstById_length {l : List Message} {i : Nat} {m : Message}
    (h : findMsg l i = some m) :
    (removeFirstById l i).length + 1 = l.length := by
  induction l with
  | nil => simp [findMsg] at h
  | cons m1 rest ih =>
    by_cases hi : m1.id = i
    · simp [removeFirstById, if_pos hi]
    · simp only [findMsg, if_neg hi] at h
      simp only [removeFirstById, if_neg hi, List.length_cons]
      rw [← ih h]

theorem findMsg_replaceFirstById {l : List Message} {i : Nat} {m m1 : Message}
    (h : findMsg l i = some m) (hid : m1.id = i) :
    findMsg (replaceFirstById l i m1) i = some m1 := by
  induction l with
  | nil => simp [findMsg] at h
  | cons m0 rest ih =>
    by_cases hi : m0.id = i
    · simp [replaceFirstById, if_pos hi, findMsg, hid]
    · simp only [findMsg, if_neg hi] at h
      simp [replaceFirstById, if_neg hi, findMsg, hi, ih h]

theorem mem_replaceFirstById {l : List Message} {i : Nat} {m1 x : Message}
    (h : x ∈ replaceFirstById l i m1) : x ∈ l ∨ x = m1 := by
  induction l with
  | nil => simp [replaceFirstById] at h
  | cons m0 rest ih =>
    by_cases hi : m0.id = i
    · simp only [replaceFirstById, if_pos hi, List.mem_cons] at h
      rcases h with h1 | h1
      · exact Or.inr h1
      · exact Or.inl (List.mem_cons_of_mem _ h1)
    · simp only [replaceFirstById, if_neg hi, List.mem_cons] at h
      rcases h with h1 | h1
      · exact Or.inl (by simp [h1])
      · rcases ih h1 with h2 | h2
        · exact Or.inl (List.mem_cons_of_mem _ h2)
        · exact Or.inr h2

theorem hasInfixB_iff {pat hay : List Char} :
    hasInfixB pat hay = true ↔ pat <:+: hay := by
  induction hay with
  | nil =>
    simp only [hasInfixB, List.isPrefixOf_iff_prefix, List.infix_nil]
    constructor
    · intro h
      simpa using List.prefix_nil.mp h
    · intro h
      simp [h]
  | cons c rest ih =>
    simp only [hasInfixB, Bool.or_eq_true, List.isPrefixOf_iff_prefix, ih,
      List.infix_cons_iff]

/-- C8: update_server_settings applies the owner patch by shallow merge with
no per-field validation: a patch carrying an ownerId field replaces the stored
ServerSettings.ownerId by the patch value, possibly the id of a user that is
not connected, while no user record (hence no isOwner flag) changes. -/
theorem c8_settings_shallow_merge (st : ServerState) (sid : String)
    (patch : SettingsPatch) (u : User) (v : Option String)
    (hu : alLookup st.users sid = some u) (ho : u.isOwner = true)
    (hp : patch.ownerId = some v) :
    (onUpdateServerSettings sid patch st).1.settings = applyPatch st.settings patch ∧
    (onUpdateServerSettings sid patch st).1.settings.ownerId = v ∧
    (onUpdateServerSettings sid patch st).1.users = st.users ∧
    (onUpdateServerSettings sid patch st).2 =
      [Emit.serverSettingsAll (applyPatch st.settings patch)] := by
  simp [onUpdateServerSettings, hu, ho, applyPatch, hp]

/-- Closed instance of c8_settings_shallow_merge: the owner patches ownerId to
the id of a socket that never connected; the stored ownerId takes that value
and the user registry is untouched. -/
theorem c8_settings_shallow_merge_witness :
    (onUpdateServerSettings "a" { ownerId := some (some "ghost") } stA).1.settings.ownerId
        = some "ghost" ∧
    (onUpdateServerSettings "a" { ownerId := some (some "ghost") } stA).1.users
        = stA.users := by
  have h := c8_settings_shallow_merge stA "a" { ownerId := some (some "ghost") }
    { id := "a", username := "A", bubbleColor := "#007bff", isOwner := true, joinTime := 0 }
    (some "ghost") (by decide) (by decide) (by decide)
  exact ⟨h.2.1, h.2.2.1⟩

/-- C9: a send_message from a registered user whose content sanitizes to the
empty string and that carries no attachment is silently discarded: the state
is unchanged and nothing is emitted. -/
theorem c9_empty_message_discarded (st : ServerState) (sid content : String)
    (fmt : Option String) (rt : Option Nat) (u : User)
    (hu : alLookup st.users sid = some u)
    (hs : sanitizeInput content = "") :
    onSendMessage sid content fmt none rt st = (st, []) := by
  simp [onSendMessage, hu, hs, jsTruthyOpt]

/-- Closed instance of c9_empty_message_discarded on content that sanitizes to
the empty string. -/
theorem c9_empty_message_discarded_witness :
    onSendMessage "a" " <> " none none none stA = (stA, []) :=
  c9_empty_message_discarded stA "a" " <> " none none
    { id := "a", username := "A", bubbleColor := "#007bff", isOwner := true, joinTime := 0 }
    (by decide) (by decide)

/-- C10: a leave_voice for an existing room emits voice_user_left for the
caller to the room even when the caller is not a member; the registry,
including that room membership, is unchanged (rooms are nonempty in every
reachable state by c7, so the room is not dropped). -/
theorem c10_leave_voice_nonmember (st : ServerState) (sid roomId : String)
    (members : List String)
    (hr : alLookup st.voiceRooms roomId = some members)
    (hm : sid ∉ members)
    (hinv : RoomsNonempty st) :
    onLeaveVoice sid roomId st = (st, [Emit.voiceUserLeft roomId sid]) := by
  have hne : members ≠ [] := hinv _ (alLookup_mem hr)
  have hdel : setDel members sid = members := setDel_not_mem hm
  have hlen : ¬ members.length = 0 := by
    cases members with
    | nil => exact absurd rfl hne
    | cons x rest => simp
  simp [onLeaveVoice, hr, hdel, hlen, alInsert_lookup_self hr]

/-- Closed instance of c10_leave_voice_nonmember: an unregistered socket b
leaves room r that holds only a; the room is unchanged and the room is told
that b left. -/
theorem c10_leave_voice_nonmember_witness :
    onLeaveVoice "b" "r" stVoice = (stVoice, [Emit.voiceUserLeft "r" "b"]) :=
  c10_leave_voice_nonmember stVoice "b" "r" ["a"] (by decide) (by decide) (by decide)

/-- C3 counterexample: a connected socket with no registered identity sends
search_messages; the claim requires a strict no-op with no outbound event,
but the handler answers the sender with search_results unconditionally. -/
theorem c3_counterexample :
    alLookup (runEvents [Event.connect "a"]).users "a" = none ∧
    (applyEvent (Event.searchMessages "a" "x") (runEvents [Event.connect "a"])).2 ≠ [] := by
  decide

/-- C3 amended: for a caller with no registered identity, change_username,
change_bubble_color, send_message, add_reaction, join_voice and
update_server_settings are strict no-ops, and edit_message and delete_message
are no-ops provided no logged message carries the caller id (which holds in
reachable states, since only registered callers get messages attributed);
leave_voice, search_messages and the webrtc relays are not guarded by
registration and may emit. -/
theorem c3_unregistered_noops (st : ServerState) (sid : String)
    (s1 s2 s3 s4 : String) (fmt att : Option String) (rt : Option Nat)
    (mid : Nat) (emo rid : String) (patch : SettingsPatch)
    (hu : alLookup st.users sid = none)
    (hmsg : ∀ m ∈ st.messages, m.userId ≠ some sid) :
    onChangeUsername sid s1 st = (st, []) ∧
    onChangeBubbleColor sid s2 st = (st, []) ∧
    onSendMessage sid s3 fmt att rt st = (st, []) ∧
    onAddReaction sid mid emo st = (st, []) ∧
    onJoinVoice sid rid st = (st, []) ∧
    onUpdateServerSettings sid patch st = (st, []) ∧
    onEditMessage sid mid s4 st = (st, []) ∧
    onDeleteMessage sid mid st = (st, []) := by
  refine ⟨?_, ?_, ?_, ?_, ?_, ?_, ?_, ?_⟩
  · simp [onChangeUsername, hu]
  · simp [onChangeBubbleColor, hu]
  · simp [onSendMessage, hu]
  · cases hfm : findMsg st.messages mid with
    | none => simp [onAddReaction, hfm, hu]
    | some m => simp [onAddReaction, hfm, hu]
  · by_cases hv : st.settings.allowVoiceChat = false
    · simp [onJoinVoice, hv]
    · simp [onJoinVoice, hv, hu]
  · simp [onUpdateServerSettings, hu]
  · cases hfm : findMsg st.messages mid with
    | none => simp [onEditMessage, hfm]
    | some m =>
      have h1 : m.userId ≠ some sid := hmsg m (findMsg_mem hfm)
      simp [onEditMessage, hfm, h1]
  · cases hfm : findMsg st.messages mid with
    | none => simp [onDeleteMessage, hfm]
    | some m =>
      have h1 : m.userId ≠ some sid := hmsg m (findMsg_mem hfm)
      simp [onDeleteMessage, hfm, h1, jsOptIsOwner, hu]

/-- Closed instance of c3_unregistered_noops for a connected socket that never
joined, on a state with an empty message log. -/
theorem c3_unregistered_noops_witness :
    onChangeUsername "a" "X" (runEvents [Event.connect "a"]) =
        (runEvents [Event.connect "a"], []) ∧
    onDeleteMessage "a" 0 (runEvents [Event.connect "a"]) =
        (runEvents [Event.connect "a"], []) := by
  have h := c3_unregistered_noops (runEvents [Event.connect "a"]) "a"
    "X" "c" "hi" "e" none none none 0 "emo" "r" {} (by decide) (by decide)
  exact ⟨h.1, h.2.2.2.2.2.2.2⟩

theorem onUserJoin_users (sid username : String) (bc : Option String) (st : ServerState) :
    (onUserJoin sid username bc st).1.users =
      alInsert st.users sid
        { id := sid
          username := jsOrDefault (sanitizeInput username) "Anonymous"
          bubbleColor := jsOrOpt bc "#007bff"
          isOwner := decide (st.settings.ownerId = some sid)
          joinTime := st.clock } := rfl

theorem onUserJoin_settings (sid username : String) (bc : Option String) (st : ServerState) :
    (onUserJoin sid username bc st).1.settings = st.settings := rfl

theorem nodup_keys_eq {α : Type} {l : List (String × α)}
    (hnd : (l.map Prod.fst).Nodup) {p q : String × α}
    (hp : p ∈ l) (hq : q ∈ l) (hk : p.1 = q.1) : p = q := by
  induction l with
  | nil => simp at hp
  | cons r rest ih =>
    simp only [List.map_cons, List.nodup_cons] at hnd
    rcases List.mem_cons.mp hp with h1 | h1 <;> rcases List.mem_cons.mp hq with h2 | h2
    · rw [h1, h2]
    · exfalso
      apply hnd.1
      rw [← h1, hk]
      exact List.mem_map.mpr ⟨q, h2, rfl⟩
    · exfalso
      apply hnd.1
      rw [← h2, ← hk]
      exact List.mem_map.mpr ⟨p, h1, rfl⟩
    · exact ih hnd.2 h1 h2

theorem regInv_connect (st : ServerState) (sid : String) (h : RegInv st) :
    RegInv (onConnect sid st).1 := by
  obtain ⟨hid, hnd, hown⟩ := h
  cases ho : st.settings.ownerId with
  | none =>
    simp only [onConnect, ho]
    refine ⟨hid, hnd, fun p hp hpo => ?_⟩
    have h2 := hown p hp hpo
    rw [ho] at h2
    exact Option.noConfusion h2
  | some x =>
    simp only [onConnect, ho]
    exact ⟨hid, hnd, hown⟩

theorem regInv_userJoin (st : ServerState) (sid username : String)
    (bc : Option String) (h : RegInv st) : RegInv (onUserJoin sid username bc st).1 := by
  obtain ⟨hid, hnd, hown⟩ := h
  refine ⟨?_, ?_, ?_⟩
  · rw [onUserJoin_users]
    intro p hp
    rcases mem_alInsert hp with h1 | h1
    · rw [h1]
    · exact hid p h1
  · rw [onUserJoin_users]
    exact nodup_keys_alInsert _ _ hnd
  · rw [onUserJoin_users, onUserJoin_settings]
    intro p hp hpo
    rcases mem_alInsert hp with h1 | h1
    · rw [h1] at hpo ⊢
      simp only [decide_eq_true_eq] at hpo
      exact hpo
    · exact hown p h1 hpo

theorem regInv_updateSettings (st : ServerState) (sid : String)
    (patch : SettingsPatch) (hp : patch.ownerId = none) (h : RegInv st) :
    RegInv (onUpdateServerSettings sid patch st).1 := by
  obtain ⟨hid, hnd, hown⟩ := h
  cases hu : alLookup st.users sid with
  | none =>
    simp only [onUpdateServerSettings, hu]
    exact ⟨hid, hnd, hown⟩
  | some u =>
    by_cases ho : u.isOwner = true
    · simp only [onUpdateServerSettings, hu, if_pos ho]
      refine ⟨hid, hnd, fun p hp1 hpo => ?_⟩
      have heq : (applyPatch st.settings patch).ownerId = st.settings.ownerId := by
        simp [applyPatch, hp]
      rw [show ({ st with settings := applyPatch st.settings patch } : ServerState).settings.ownerId
            = (applyPatch st.settings patch).ownerId from rfl, heq]
      exact hown p hp1 hpo
    · simp only [onUpdateServerSettings, hu, if_neg ho]
      exact ⟨hid, hnd, hown⟩

theorem regInv_disconnect (st : ServerState) (sid : String) (h : RegInv st) :
    RegInv (onDisconnect sid st).1 := by
  obtain ⟨hid, hnd, hown⟩ := h
  cases hu : alLookup st.users sid with
  | none =>
    simp only [onDisconnect, hu]
    exact ⟨hid, hnd, hown⟩
  | some u =>
    have hid1 : ∀ p ∈ alErase st.users sid, p.1 = p.2.id :=
      fun p hp => hid p (mem_alErase hp)
    have hnd1 : ((alErase st.users sid).map Prod.fst).Nodup := nodup_keys_alErase _ hnd
    by_cases ho : u.isOwner = true
    · cases hrem : alErase st.users sid with
      | nil =>
        simp only [onDisconnect, hu, if_pos ho, hrem]
        refine ⟨?_, ?_, ?_⟩ <;> simp
      | cons p0 rest =>
        obtain ⟨k0, u0⟩ := p0
        simp only [onDisconnect, hu, if_pos ho, hrem]
        have hk0 : k0 = u0.id := by
          have := hid1 (k0, u0) (by rw [hrem]; exact List.mem_cons_self _ _)
          exact this
        refine ⟨?_, ?_, ?_⟩
        · intro p hp
          rcases List.mem_cons.mp hp with h1 | h1
          · rw [h1]; exact hk0
          · exact hid1 p (by rw [hrem]; exact List.mem_cons_of_mem _ h1)
        · have h2 := hnd1
          rw [hrem] at h2
          simpa using h2
        · intro p hp hpo
          rcases List.mem_cons.mp hp with h1 | h1
          · rw [h1]
          · exfalso
            have hpmem : p ∈ st.users :=
              mem_alErase (l := st.users) (k := sid) (by rw [hrem]; exact List.mem_cons_of_mem _ h1)
            have h2 := hown p hpmem hpo
            have h3 := hown (sid, u) (alLookup_mem hu) ho
            have hpid : p.2.id = u.id := by
              rw [h2] at h3
              exact Option.some.inj h3
            have hsid : sid = u.id := hid (sid, u) (alLookup_mem hu)
            have hp1 : p.1 = sid := by rw [hid p hpmem, hpid, ← hsid]
            have hnot := not_mem_keys_alErase (l := st.users) (k := sid) hnd
            rw [hrem] at hnot
            exact hnot (List.mem_map.mpr ⟨p, List.mem_cons_of_mem _ h1, hp1⟩)
    · simp only [onDisconnect, hu, if_neg ho]
      exact ⟨hid1, hnd1, fun p hp hpo => hown p (mem_alErase hp) hpo⟩

theorem regInv_step (st : ServerState) (e : Event) (he : C1Event e) (h : RegInv st) :
    RegInv (applyEvent e st).1 := by
  cases e with
  | connect sid => exact regInv_connect st sid h
  | userJoin sid username bc => exact regInv_userJoin st sid username bc h
  | updateServerSettings sid patch => exact regInv_updateSettings st sid patch he h
  | disconnect sid => exact regInv_disconnect st sid h
  | changeUsername a b => exact absurd he (by simp [C1Event])
  | changeBubbleColor a b => exact absurd he (by simp [C1Event])
  | sendMessage a b c d f => exact absurd he (by simp [C1Event])
  | editMessage a b c => exact absurd he (by simp [C1Event])
  | deleteMessage a b => exact absurd he (by simp [C1Event])
  | addReaction a b c => exact absurd he (by simp [C1Event])
  | joinVoice a b => exact absurd he (by simp [C1Event])
  | leaveVoice a b => exact absurd he (by simp [C1Event])
  | searchMessages a b => exact absurd he (by simp [C1Event])
  | webrtcOffer a b c => exact absurd he (by simp [C1Event])
  | webrtcAnswer a b c => exact absurd he (by simp [C1Event])
  | webrtcIceCandidate a b c => exact absurd he (by simp [C1Event])

theorem runFrom_cons (st : ServerState) (e : Event) (evs : List Event) :
    runFrom st (e :: evs) = runFrom (applyEvent e st).1 evs := rfl

theorem regInv_runFrom (evs : List Event) (st : ServerState)
    (he : ∀ e ∈ evs, C1Event e) (h : RegInv st) : RegInv (runFrom st evs) := by
  induction evs generalizing st with
  | nil => exact h
  | cons e rest ih =>
    rw [runFrom_cons]
    exact ih _ (fun x hx => he x (List.mem_cons_of_mem _ hx))
      (regInv_step st e (he e (List.mem_cons_self _ _)) h)

/-- C1 counterexample: after the owner joins and then disconnects as the last
user, no users are connected yet ServerSettings.ownerId still holds the old
socket id instead of being unset; the stated invariant fails on this
reachable state built from connect, user_join and disconnect only. -/
theorem c1_counterexample :
    ¬ C1Claim (runEvents [Event.connect "a", Event.userJoin "a" "A" none,
      Event.disconnect "a"]) := by
  decide

/-- C1 amended: over sequences of connect, user_join, update_server_settings
and disconnect events in which no settings patch carries an ownerId field, in
every reachable state at most one registered user has isOwner true and, when
such an owner exists, ServerSettings.ownerId equals its id. The original
clause that ownerId is unset when no users are connected does not hold:
ownerId keeps its last value forever once set. -/
theorem c1_owner_unique_and_matches (evs : List Event)
    (he : ∀ e ∈ evs, C1Event e) :
    (∀ p ∈ (runEvents evs).users, ∀ q ∈ (runEvents evs).users,
        p.2.isOwner = true → q.2.isOwner = true → p = q) ∧
    (∀ p ∈ (runEvents evs).users, p.2.isOwner = true →
        (runEvents evs).settings.ownerId = some p.2.id) := by
  have h0 : RegInv initState := by
    refine ⟨?_, ?_, ?_⟩ <;> simp [initState]
  obtain ⟨hid, hnd, hown⟩ := regInv_runFrom evs initState he h0
  refine ⟨?_, hown⟩
  intro p hp q hq hpo hqo
  have h1 := hown p hp hpo
  have h2 := hown q hq hqo
  have hk : p.1 = q.1 := by
    rw [hid p hp, hid q hq]
    rw [h1] at h2
    exact Option.some.inj h2
  exact nodup_keys_eq hnd hp hq hk

/-- Closed instance of c1_owner_unique_and_matches on a five-event run in
which the owner disconnects and a second user remains: ownerId equals the id
of the promoted registered owner. -/
theorem c1_owner_unique_and_matches_witness :
    (runEvents [Event.connect "a", Event.userJoin "a" "A" none,
      Event.connect "b", Event.userJoin "b" "B" none,
      Event.disconnect "a"]).settings.ownerId = some "b" :=
  (c1_owner_unique_and_matches
    [Event.connect "a", Event.userJoin "a" "A" none,
      Event.connect "b", Event.userJoin "b" "B" none, Event.disconnect "a"]
    (by intro e he; fin_cases he <;> simp [C1Event])).2
    ("b", { id := "b", username := "B", bubbleColor := "#007bff",
            isOwner := true, joinTime := 1 })
    (by decide) (by decide)


/-- C2 counterexample: a, b, c join in that order, then b re-joins (allowed,
user_join is re-entrant), which resets b joinTime to the latest value while b
keeps its map position ahead of c. When owner a disconnects, the handler
promotes the first map entry b, not the remaining user with the earliest join
time c, so the claim fails on this reachable state. -/
theorem c2_counterexample : ¬ C2ClaimAt stRejoin "a" := by
  decide

/-- C2 amended: when the registered owner disconnects and at least one
registered user remains, exactly one remaining user is promoted within the
handling of that disconnect, namely the first remaining entry of the users
map in insertion order, and ServerSettings.ownerId is set to its id; the
promoted user is also notified with owner_status. The first entry is the one
with the earliest join time whenever join times are nondecreasing along the
registration order, which holds unless some remaining user re-joined. -/
theorem c2_owner_succession (st : ServerState) (sid : String)
    (u u0 : User) (k0 : String) (rest : List (String × User))
    (hnd : (st.users.map Prod.fst).Nodup)
    (hu : alLookup st.users sid = some u)
    (ho : u.isOwner = true)
    (hone : ∀ p ∈ st.users, p.2.isOwner = true → p.1 = sid)
    (hrem : alErase st.users sid = (k0, u0) :: rest) :
    (onDisconnect sid st).1.users = (k0, { u0 with isOwner := true }) :: rest ∧
    (onDisconnect sid st).1.settings.ownerId = some u0.id ∧
    (∀ p ∈ (onDisconnect sid st).1.users, p.2.isOwner = true →
        p = (k0, { u0 with isOwner := true })) ∧
    Emit.ownerStatus u0.id true ∈ (onDisconnect sid st).2 ∧
    ((st.users.map (fun p => p.2.joinTime)).Pairwise (· ≤ ·) →
        ∀ p ∈ rest, u0.joinTime ≤ p.2.joinTime) := by
  simp only [onDisconnect, hu, if_pos ho, hrem]
  refine ⟨trivial, trivial, ?_, ?_, ?_⟩
  · intro p hp hpo
    rcases List.mem_cons.mp hp with h1 | h1
    · exact h1
    · exfalso
      have hpmem : p ∈ st.users :=
        mem_alErase (l := st.users) (k := sid) (by rw [hrem]; exact List.mem_cons_of_mem _ h1)
      have hp1 : p.1 = sid := hone p hpmem hpo
      have hnot := not_mem_keys_alErase (l := st.users) (k := sid) hnd
      rw [hrem] at hnot
      exact hnot (List.mem_map.mpr ⟨p, List.mem_cons_of_mem _ h1, hp1⟩)
  · simp
  · intro hpw p hp
    have hsub : ((alErase st.users sid).map (fun p => p.2.joinTime)).Sublist
        (st.users.map (fun p => p.2.joinTime)) :=
      (alErase_sublist st.users sid).map _
    rw [hrem] at hsub
    have hpw1 := hpw.sublist hsub
    rw [List.map_cons, List.pairwise_cons] at hpw1
    exact hpw1.1 _ (List.mem_map.mpr ⟨p, hp, rfl⟩)

/-- Closed instance of c2_owner_succession: owner a disconnects while b
remains; b is promoted and recorded in ownerId. -/
theorem c2_owner_succession_witness :
    (onDisconnect "a" stAB).1.users =
      [("b", { id := "b", username := "B", bubbleColor := "#007bff",
               isOwner := true, joinTime := 1 })] ∧
    (onDisconnect "a" stAB).1.settings.ownerId = some "b" := by
  have h := c2_owner_succession stAB "a"
    { id := "a", username := "A", bubbleColor := "#007bff", isOwner := true, joinTime := 0 }
    { id := "b", username := "B", bubbleColor := "#007bff", isOwner := false, joinTime := 1 }
    "b" []
    (by decide) (by decide) (by decide) (by decide) (by decide)
  exact ⟨h.1, h.2.1⟩

theorem onConnect_voiceRooms (sid : String) (st : ServerState) :
    (onConnect sid st).1.voiceRooms = st.voiceRooms := by
  unfold onConnect
  split <;> rfl

theorem onUserJoin_voiceRooms (sid username : String) (bc : Option String)
    (st : ServerState) : (onUserJoin sid username bc st).1.voiceRooms = st.voiceRooms := rfl

theorem onChangeUsername_voiceRooms (sid s : String) (st : ServerState) :
    (onChangeUsername sid s st).1.voiceRooms = st.voiceRooms := by
  unfold onChangeUsername
  split <;> rfl

theorem onChangeBubbleColor_voiceRooms (sid s : String) (st : ServerState) :
    (onChangeBubbleColor sid s st).1.voiceRooms = st.voiceRooms := by
  unfold onChangeBubbleColor
  split <;> rfl

theorem onSendMessage_voiceRooms (sid c : String) (fmt att : Option String)
    (rt : Option Nat) (st : ServerState) :
    (onSendMessage sid c fmt att rt st).1.voiceRooms = st.voiceRooms := by
  unfold onSendMessage
  split
  · rfl
  · dsimp only
    split <;> rfl

theorem onEditMessage_voiceRooms (sid : String) (mid : Nat) (s : String)
    (st : ServerState) : (onEditMessage sid mid s st).1.voiceRooms = st.voiceRooms := by
  unfold onEditMessage
  split
  · rfl
  · split <;> rfl

theorem onDeleteMessage_voiceRooms (sid : String) (mid : Nat) (st : ServerState) :
    (onDeleteMessage sid mid st).1.voiceRooms = st.voiceRooms := by
  unfold onDeleteMessage
  split
  · rfl
  · split <;> rfl

theorem onAddReaction_voiceRooms (sid : String) (mid : Nat) (emo : String)
    (st : ServerState) : (onAddReaction sid mid emo st).1.voiceRooms = st.voiceRooms := by
  unfold onAddReaction
  split
  · split <;> (dsimp only; split <;> rfl)
  · rfl

theorem onUpdateServerSettings_voiceRooms (sid : String) (patch : SettingsPatch)
    (st : ServerState) :
    (onUpdateServerSettings sid patch st).1.voiceRooms = st.voiceRooms := by
  unfold onUpdateServerSettings
  split
  · split <;> rfl
  · rfl

theorem roomsNonempty_joinVoice (sid rid : String) (st : ServerState)
    (h : RoomsNonempty st) : RoomsNonempty (onJoinVoice sid rid st).1 := by
  intro p hp
  unfold onJoinVoice at hp
  by_cases hv : st.settings.allowVoiceChat = false
  · rw [if_pos hv] at hp
    exact h p hp
  · rw [if_neg hv] at hp
    cases hu : alLookup st.users sid with
    | none =>
      simp only [hu] at hp
      exact h p hp
    | some u =>
      simp only [hu] at hp
      by_cases hr : (alLookup st.voiceRooms rid).isSome
      · simp only [if_pos hr] at hp
        rcases mem_alInsert hp with h1 | h1
        · rw [h1]
          dsimp only
          exact setAdd_ne_nil _ _
        · exact h p h1
      · simp only [if_neg hr, alLookup_alInsert, Option.getD_some, alInsert_alInsert] at hp
        rcases mem_alInsert hp with h1 | h1
        · rw [h1]
          dsimp only
          exact setAdd_ne_nil _ _
        · exact h p h1

theorem roomsNonempty_leaveVoice (sid rid : String) (st : ServerState)
    (h : RoomsNonempty st) : RoomsNonempty (onLeaveVoice sid rid st).1 := by
  intro p hp
  unfold onLeaveVoice at hp
  cases hr : alLookup st.voiceRooms rid with
  | none =>
    simp only [hr] at hp
    exact h p hp
  | some members =>
    simp only [hr] at hp
    by_cases hlen : (setDel members sid).length = 0
    · simp only [if_pos hlen] at hp
      exact h p (mem_alErase hp)
    · simp only [if_neg hlen] at hp
      rcases mem_alInsert hp with h1 | h1
      · rw [h1]
        intro hemp
        exact hlen (by rw [show setDel members sid = [] from by simpa using hemp]; rfl)
      · exact h p h1

theorem purgeVoice_nonempty (rooms : List (String × List String)) (sid : String)
    (h : ∀ p ∈ rooms, p.2 ≠ []) : ∀ p ∈ (purgeVoice rooms sid).1, p.2 ≠ [] := by
  induction rooms with
  | nil => simp [purgeVoice]
  | cons r rest ih =>
    obtain ⟨rid, members⟩ := r
    intro p hp
    have hrest : ∀ q ∈ rest, q.2 ≠ [] := fun q hq => h q (List.mem_cons_of_mem _ hq)
    by_cases hm : sid ∈ members
    · by_cases hlen : (setDel members sid).length = 0
      · simp only [purgeVoice, if_pos hm, if_pos hlen] at hp
        exact ih hrest p hp
      · simp only [purgeVoice, if_pos hm, if_neg hlen] at hp
        rcases List.mem_cons.mp hp with h1 | h1
        · rw [h1]
          intro hemp
          exact hlen (by rw [show setDel members sid = [] from by simpa using hemp]; rfl)
        · exact ih hrest p h1
    · simp only [purgeVoice, if_neg hm] at hp
      rcases List.mem_cons.mp hp with h1 | h1
      · rw [h1]
        exact h (rid, members) (List.mem_cons_self _ _)
      · exact ih hrest p h1

theorem roomsNonempty_disconnect (sid : String) (st : ServerState)
    (h : RoomsNonempty st) : RoomsNonempty (onDisconnect sid st).1 := by
  cases hu : alLookup st.users sid with
  | none =>
    simp only [onDisconnect, hu]
    exact h
  | some u =>
    intro p hp
    have hpv := purgeVoice_nonempty st.voiceRooms sid h
    simp only [onDisconnect, hu] at hp
    by_cases ho : u.isOwner = true
    · cases hrem : alErase st.users sid with
      | nil =>
        simp only [if_pos ho, hrem] at hp
        exact hpv p hp
      | cons q rest =>
        obtain ⟨k0, u0⟩ := q
        simp only [if_pos ho, hrem] at hp
        exact hpv p hp
    · simp only [if_neg ho] at hp
      exact hpv p hp

theorem roomsNonempty_step (e : Event) (st : ServerState) (h : RoomsNonempty st) :
    RoomsNonempty (applyEvent e st).1 := by
  cases e with
  | connect sid =>
    intro p hp
    simp only [applyEvent, onConnect_voiceRooms] at hp
    exact h p hp
  | userJoin sid username bc =>
    intro p hp
    simp only [applyEvent, onUserJoin_voiceRooms] at hp
    exact h p hp
  | changeUsername a b =>
    intro p hp
    simp only [applyEvent, onChangeUsername_voiceRooms] at hp
    exact h p hp
  | changeBubbleColor a b =>
    intro p hp
    simp only [applyEvent, onChangeBubbleColor_voiceRooms] at hp
    exact h p hp
  | sendMessage a b c d f =>
    intro p hp
    simp only [applyEvent, onSendMessage_voiceRooms] at hp
    exact h p hp
  | editMessage a b c =>
    intro p hp
    simp only [applyEvent, onEditMessage_voiceRooms] at hp
    exact h p hp
  | deleteMessage a b =>
    intro p hp
    simp only [applyEvent, onDeleteMessage_voiceRooms] at hp
    exact h p hp
  | addReaction a b c =>
    intro p hp
    simp only [applyEvent, onAddReaction_voiceRooms] at hp
    exact h p hp
  | joinVoice a b => exact roomsNonempty_joinVoice a b st h
  | leaveVoice a b => exact roomsNonempty_leaveVoice a b st h
  | updateServerSettings a b =>
    intro p hp
    simp only [applyEvent, onUpdateServerSettings_voiceRooms] at hp
    exact h p hp
  | searchMessages a b => exact h
  | webrtcOffer a b c => exact h
  | webrtcAnswer a b c => exact h
  | webrtcIceCandidate a b c => exact h
  | disconnect a => exact roomsNonempty_disconnect a st h

theorem roomsNonempty_runFrom (evs : List Event) (st : ServerState)
    (h : RoomsNonempty st) : RoomsNonempty (runFrom st evs) := by
  induction evs generalizing st with
  | nil => exact h
  | cons e rest ih =>
    rw [runFrom_cons]
    exact ih _ (roomsNonempty_step e st h)

/-- C7: in every reachable state the voice-room registry holds no room with an
empty member set; join_voice, leave_voice and the disconnect purge (and every
other handler) preserve this. -/
theorem c7_voice_rooms_never_empty (evs : List Event) :
    RoomsNonempty (runEvents evs) :=
  roomsNonempty_runFrom evs initState (by intro p hp; simp [initState] at hp)

/-- C4: delete_message removes the message and broadcasts message_deleted
exactly when the message exists and the actor authored it or the actor is the
registered owner; otherwise the state is unchanged and nothing is emitted.
Under unique message ids a second delete_message of the same id, by any
actor, is a strict no-op. -/
theorem c4_delete_message (st : ServerState) (sid : String) (msgId : Nat)
    (m : Message)
    (huniq : st.messages.countP (fun x => x.id == msgId) ≤ 1) :
    (findMsg st.messages msgId = some m →
      (m.userId = some sid ∨ jsOptIsOwner (alLookup st.users sid) = true) →
      ((∀ x ∈ (onDeleteMessage sid msgId st).1.messages, x.id ≠ msgId) ∧
        (onDeleteMessage sid msgId st).1.messages.length + 1 = st.messages.length ∧
        (onDeleteMessage sid msgId st).2 = [Emit.messageDeleted msgId] ∧
        (∀ sid2, onDeleteMessage sid2 msgId (onDeleteMessage sid msgId st).1 =
          ((onDeleteMessage sid msgId st).1, [])))) ∧
    (findMsg st.messages msgId = none → onDeleteMessage sid msgId st = (st, [])) ∧
    (findMsg st.messages msgId = some m →
      ¬(m.userId = some sid ∨ jsOptIsOwner (alLookup st.users sid) = true) →
      onDeleteMessage sid msgId st = (st, [])) := by
  refine ⟨?_, ?_, ?_⟩
  · intro hm hperm
    have hred : onDeleteMessage sid msgId st =
        ({ st with messages := removeFirstById st.messages msgId },
          [Emit.messageDeleted msgId]) := by
      simp only [onDeleteMessage, hm, if_pos hperm]
    rw [hred]
    have hno : ∀ x ∈ removeFirstById st.messages msgId, x.id ≠ msgId :=
      removeFirstById_no_id huniq
    refine ⟨hno, removeFirstById_length hm, rfl, ?_⟩
    intro sid2
    have hnone : findMsg (removeFirstById st.messages msgId) msgId = none :=
      findMsg_eq_none hno
    simp only [onDeleteMessage, hnone]
  · intro hm
    simp only [onDeleteMessage, hm]
  · intro hm hperm
    simp only [onDeleteMessage, hm, if_neg hperm]

/-- Closed instance of c4_delete_message: the author deletes its own message;
the id disappears from the log, message_deleted is broadcast, and a repeated
delete of the same id is a no-op. -/
theorem c4_delete_message_witness :
    (onDeleteMessage "a" 1 stMsg).2 = [Emit.messageDeleted 1] ∧
    (∀ x ∈ (onDeleteMessage "a" 1 stMsg).1.messages, x.id ≠ 1) ∧
    onDeleteMessage "a" 1 (onDeleteMessage "a" 1 stMsg).1 =
      ((onDeleteMessage "a" 1 stMsg).1, []) := by
  have h := (c4_delete_message stMsg "a" 1
    { id := 1, type := MsgType.user, content := "Hello World", username := "A",
      userId := some "a", bubbleColor := some "#007bff", timestamp := 1 }
    (by decide)).1 (by decide) (Or.inl (by decide))
  exact ⟨h.2.2.1, h.1, h.2.2.2 "a"⟩

theorem nodup_append_singleton {l : List String} {x : String}
    (h : l.Nodup) (hx : x ∉ l) : (l ++ [x]).Nodup := by
  simp [List.nodup_append, h, hx]

theorem onAddReaction_eq (sid : String) (msgId : Nat) (emoji : String)
    (st : ServerState) (u : User) (m : Message) (L : List String)
    (hu : alLookup st.users sid = some u) (hm : findMsg st.messages msgId = some m)
    (hL : (alLookup m.reactions emoji).getD [] = L) :
    onAddReaction sid msgId emoji st =
      (if u.username ∈ L then (st, [])
       else
         ({ st with messages := replaceFirstById st.messages msgId { m with reactions := alInsert m.reactions emoji (L ++ [u.username]) } },
           [Emit.reactionAdded msgId emoji (L ++ [u.username])])) := by
  by_cases hpres : (alLookup m.reactions emoji).isSome
  · simp only [onAddReaction, hm, hu, if_pos hpres, hL]
  · rw [Option.not_isSome_iff_eq_none] at hpres
    rw [hpres] at hL
    simp only [Option.getD_none] at hL
    simp only [onAddReaction, hm, hu, hpres, Option.isSome_none, Bool.false_eq_true, if_false,
      alLookup_alInsert, Option.getD_some, alInsert_alInsert, ← hL,
      List.nil_append, List.not_mem_nil, if_neg (List.not_mem_nil u.username)]

/-- C5: for a registered user and an existing message, adding the same
reaction twice leaves exactly one occurrence of the username in the reaction
list of that emoji: the second add_reaction is a strict no-op (not an error),
and the handler preserves the invariant that no reaction list repeats a
username. -/
theorem c5_add_reaction_idempotent (st : ServerState) (sid : String)
    (msgId : Nat) (emoji : String) (u : User) (m : Message) (L : List String)
    (hu : alLookup st.users sid = some u)
    (hm : findMsg st.messages msgId = some m)
    (hL : (alLookup m.reactions emoji).getD [] = L)
    (hcnt : L.count u.username ≤ 1) :
    ∃ m1, findMsg (onAddReaction sid msgId emoji st).1.messages msgId = some m1 ∧
      ((alLookup m1.reactions emoji).getD []).count u.username = 1 ∧
      onAddReaction sid msgId emoji (onAddReaction sid msgId emoji st).1 =
        ((onAddReaction sid msgId emoji st).1, []) ∧
      (ReactionsNodup st → ReactionsNodup (onAddReaction sid msgId emoji st).1) := by
  have heq := onAddReaction_eq sid msgId emoji st u m L hu hm hL
  by_cases hmem : u.username ∈ L
  · rw [if_pos hmem] at heq
    refine ⟨m, ?_, ?_, ?_, ?_⟩
    · rw [heq]
      exact hm
    · rw [hL]
      have h1 : 0 < L.count u.username := List.count_pos_iff.mpr hmem
      omega
    · rw [heq]
      exact heq
    · intro hnd
      rw [heq]
      exact hnd
  · rw [if_neg hmem] at heq
    have hcnt0 : L.count u.username = 0 := List.count_eq_zero.mpr hmem
    have hm1id : ({ m with reactions := alInsert m.reactions emoji (L ++ [u.username]) } : Message).id = msgId := by
      show m.id = msgId
      exact findMsg_id hm
    have hfind1 : findMsg (onAddReaction sid msgId emoji st).1.messages msgId =
        some { m with reactions := alInsert m.reactions emoji (L ++ [u.username]) } := by
      rw [heq]
      exact findMsg_replaceFirstById hm hm1id
    refine ⟨_, hfind1, ?_, ?_, ?_⟩
    · show ((alLookup (alInsert m.reactions emoji (L ++ [u.username])) emoji).getD []).count u.username = 1
      rw [alLookup_alInsert]
      simp [List.count_append, hcnt0]
    · have hu1 : alLookup (onAddReaction sid msgId emoji st).1.users sid = some u := by
        rw [heq]
        exact hu
      have hL1 : (alLookup ({ m with reactions := alInsert m.reactions emoji (L ++ [u.username]) } : Message).reactions emoji).getD [] = L ++ [u.username] := by
        show (alLookup (alInsert m.reactions emoji (L ++ [u.username])) emoji).getD [] = L ++ [u.username]
        rw [alLookup_alInsert]
        rfl
      have heq2 := onAddReaction_eq sid msgId emoji (onAddReaction sid msgId emoji st).1 u
        _ (L ++ [u.username]) hu1 hfind1 hL1
      rw [if_pos (by simp : u.username ∈ L ++ [u.username])] at heq2
      exact heq2
    · intro hnd
      intro msg hmsg rp hrp
      rw [heq] at hmsg
      have hmsg1 : msg ∈ replaceFirstById st.messages msgId
          { m with reactions := alInsert m.reactions emoji (L ++ [u.username]) } := hmsg
      rcases mem_replaceFirstById hmsg1 with h1 | h1
      · exact hnd msg h1 rp hrp
      · rw [h1] at hrp
        have hrp1 : rp ∈ alInsert m.reactions emoji (L ++ [u.username]) := hrp
        rcases mem_alInsert hrp1 with h2 | h2
        · rw [h2]
          dsimp only
          have hLnd : L.Nodup := by
            rw [← hL]
            cases hlk : alLookup m.reactions emoji with
            | none => simp
            | some l =>
              simp only [Option.getD_some]
              exact hnd m (findMsg_mem hm) (emoji, l) (alLookup_mem hlk)
          exact nodup_append_singleton hLnd hmem
        · exact hnd m (findMsg_mem hm) rp h2

/-- Closed instance of c5_add_reaction_idempotent: user A reacts to message 1
of the two-message scenario log; the reaction list holds A exactly once and
the repeated add is a no-op. -/
theorem c5_add_reaction_idempotent_witness :
    ∃ m1, findMsg (onAddReaction "a" 1 "+1" stMsg).1.messages 1 = some m1 ∧
      ((alLookup m1.reactions "+1").getD []).count "A" = 1 ∧
      onAddReaction "a" 1 "+1" (onAddReaction "a" 1 "+1" stMsg).1 =
        ((onAddReaction "a" 1 "+1" stMsg).1, []) ∧
      (ReactionsNodup stMsg → ReactionsNodup (onAddReaction "a" 1 "+1" stMsg).1) :=
  c5_add_reaction_idempotent stMsg "a" 1 "+1"
    { id := "a", username := "A", bubbleColor := "#007bff", isOwner := true, joinTime := 0 }
    { id := 1, type := MsgType.user, content := "Hello World", username := "A",
      userId := some "a", bubbleColor := some "#007bff", timestamp := 1 }
    [] (by decide) (by decide) (by decide) (by decide)

theorem hasInfixB_nil (l : List Char) : hasInfixB [] l = true := by
  cases l <;> simp [hasInfixB, List.isPrefixOf]

/-- C6: search_messages never changes state; it answers the sender with
exactly the messages whose content or username contains the sanitized and
lowercased query as a substring of their lowercased text, preserving log
order, and with the empty query it returns the full log unchanged. -/
theorem c6_search (st : ServerState) (sid q : String) :
    (onSearchMessages sid q st).1 = st ∧
    ∃ res, (onSearchMessages sid q st).2 = [Emit.searchResults sid res] ∧
      (q = "" → res = st.messages) ∧
      res.Sublist st.messages ∧
      (∀ m, m ∈ res ↔ m ∈ st.messages ∧
        ((jsToLower (sanitizeInput q)).data <:+: (jsToLower m.content).data ∨
         (jsToLower (sanitizeInput q)).data <:+: (jsToLower m.username).data)) := by
  refine ⟨rfl, st.messages.filter (searchMatch (jsToLower (sanitizeInput q))), rfl,
    ?_, List.filter_sublist _, ?_⟩
  · rintro rfl
    apply List.filter_eq_self.mpr
    intro m hm
    show searchMatch (jsToLower (sanitizeInput "")) m = true
    have hq : jsToLower (sanitizeInput "") = "" := rfl
    rw [hq]
    show (jsIncludes (jsToLower m.content) "" || jsIncludes (jsToLower m.username) "") = true
    simp [jsIncludes, hasInfixB_nil]
  · intro m
    simp only [List.mem_filter, searchMatch, Bool.or_eq_true, jsIncludes, hasInfixB_iff]

/-- Closed instance of c6_search: the query HELLO finds the message whose
content is Hello World, case-insensitively. -/
theorem c6_search_witness :
    ∃ res, (onSearchMessages "s" "HELLO" stMsg).2 = [Emit.searchResults "s" res] ∧
      { id := 1, type := MsgType.user, content := "Hello World", username := "A",
        userId := some "a", bubbleColor := some "#007bff", timestamp := 1 } ∈ res := by
  obtain ⟨h1, res, h2, h3, h4, h5⟩ := c6_search stMsg "s" "HELLO"
  refine ⟨res, h2, ?_⟩
  apply (h5 _).mpr
  exact ⟨by decide, Or.inl (hasInfixB_iff.mp (by decide))⟩

/-- Closed instance of c7_voice_rooms_never_empty on a run that creates a
voice room. -/
theorem c7_voice_rooms_never_empty_witness :
    RoomsNonempty (runEvents [Event.connect "a", Event.userJoin "a" "A" none,
      Event.joinVoice "a" "r"]) :=
  c7_voice_rooms_never_empty
    [Event.connect "a", Event.userJoin "a" "A" none, Event.joinVoice "a" "r"]
